import Mathlib

/-!
# Narrative graph model of the story builder

A shallow embedding of the core (`src/builder/core/Scene.js` and
`src/builder/core/Story.js`) of the choose-your-own-adventure builder.

Modelling conventions (heap flattening):
* A JS `Scene` object becomes a `Scene` record.  The JS `parent` field holds an
  object reference; here it is flattened to the referenced scene's key
  (`Option String`), resolved through the story's scene collection whenever the
  source dereferences it.  A parent reference whose key is absent from the
  collection (a detached object in JS) cannot be followed in the flattened
  model; the operations below note where this matters.
* A JS `Map` (insertion ordered) becomes an association list; `Map.set` of a
  fresh key appends, `Map.delete` filters the entry out, both preserving order
  exactly as the JS `Map` does.
* JS `undefined`/`null` optional values and thrown `TypeError`s are modelled
  with `Option`: an operation that can fault returns `none` for the fault.
-/

/-- A scene: node of the narrative graph.  `choices` maps a target key
(`next`) to the label text, in insertion order, exactly like the JS
`Map<string, string>` field (entries are `(next, text)` pairs). -/
structure Scene where
  key : String
  text : String
  parent : Option String
  choices : List (String × String)
  deriving Repr, DecidableEq

/-- The story: the scene collection (key → Scene, insertion ordered) and the
designated root, flattened to the root scene's key (`none` = JS `null`). -/
structure Story where
  scenes : List (String × Scene)
  root : Option String
  deriving Repr, DecidableEq

namespace Scene

/-- Model of `Scene.addChoice(text, next)`: insert `(next → text)` unless `next` is
already a key of `choices`; the Bool is the JS return value. -/
def addChoice (s : Scene) (text next : String) : Scene × Bool :=
  if s.choices.any (fun c => decide (c.1 = next)) then (s, false)
  else ({ s with choices := s.choices ++ [(next, text)] }, true)

/-- Variant of `addChoice` for when the caller discards the returned Bool. -/
def addChoiceD (s : Scene) (text next : String) : Scene :=
  (s.addChoice text next).1

/-- Model of `Scene.removeChoice(next)`: delete the entry keyed `next`. -/
def removeChoice (s : Scene) (next : String) : Scene :=
  { s with choices := s.choices.filter (fun c => decide (c.1 ≠ next)) }

/-- Lookup of a label by target key (`this.choices.get(next)`). -/
def getChoice (s : Scene) (next : String) : Option String :=
  (s.choices.find? (fun c => decide (c.1 = next))).map Prod.snd

/-- The comparison loop of `Scene.choicesAreEqual` once both sides are
actual maps: same size, and every entry of the current choices has the same
label in the new map (`newChoices.get(key) !== value` fails for none). -/
def choicesEqList (cur nc : List (String × String)) : Bool :=
  decide (cur.length = nc.length) &&
    cur.all (fun c => decide ((nc.find? (fun d => decide (d.1 = c.1))).map Prod.snd = some c.2))

/-- Model of `Scene.choicesAreEqual(newChoices)`.  When `newChoices` is `null` the JS
body evaluates `newChoices.size` and throws a `TypeError`; that fault is the
`none` result. -/
def choicesAreEqual (s : Scene) (newChoices : Option (List (String × String))) :
    Option Bool :=
  match newChoices with
  | none => none
  | some nc => some (choicesEqList s.choices nc)

/-- Model of `Scene.updateContent(newText, newChoices)`.  `newText` is `some t` for a
string argument and `none` for `null`/missing (a non-string argument fails
the `typeof` guard the same way); the guard `newText.trim() !== ''` holds
exactly when the string contains a non-whitespace character.  The result is
`none` when the JS body throws: `choicesAreEqual(null)` faults before
reaching the `newChoices === null` branch that would clear the choices, so
that clearing branch is dead code in the source and unreachable here. -/
def updateContent (s : Scene) (newText : Option String)
    (newChoices : Option (List (String × String))) : Option (Scene × Bool) :=
  let step : Scene × Bool :=
    match newText with
    | some t =>
        if t.data.any (fun c => !c.isWhitespace) then ({ s with text := t }, true)
        else (s, false)
    | none => (s, false)
  match choicesAreEqual step.1 newChoices with
  | none => none
  | some true => some (step.1, step.2)
  | some false =>
      match newChoices with
      | some nc => some ({ step.1 with choices := nc }, true)
      | none => none

/-- A choice entry of the serialized form: `{text, next}`. -/
structure ChoiceRec where
  text : String
  next : String
  deriving Repr, DecidableEq

/-- The serialized form of a scene: `{text, choices?}`, where the `choices`
field is omitted (`none`) rather than present-but-empty. -/
structure SceneJSON where
  text : String
  choices : Option (List ChoiceRec)
  deriving Repr, DecidableEq

/-- Model of `Scene.toJSON()`: emit the choice entries in map order; omit the
`choices` field entirely when there are none. -/
def toJSON (s : Scene) : SceneJSON :=
  let choicesArray := s.choices.map (fun c => ChoiceRec.mk c.2 c.1)
  if choicesArray.isEmpty then { text := s.text, choices := none }
  else { text := s.text, choices := some choicesArray }

/-- The loop of `Scene.fromJson` adding each well-formed choice entry via
`addChoice` (whose return value is discarded, so duplicate targets are
dropped silently). -/
def addChoicesFromJson (s : Scene) (l : List ChoiceRec) : Scene :=
  l.foldl (fun acc c => acc.addChoiceD c.text c.next) s

/-- Model of `Scene.fromJson(key, json)` on an already-parsed object.  The JS guard
`if (!key || !json)` rejects an empty key (a falsy string); the guard
`if (!parsedObject.text || typeof parsedObject.text !== 'string')` rejects an
empty `text` as well, since the empty string is falsy.  Otherwise a fresh
scene `new Scene(key, text, null, [])` is built and every choice entry with
string `text` and `next` fields (always the case in this typed model) is
added through `addChoice`. -/
def fromJson (key : String) (json : SceneJSON) : Option Scene :=
  if key = "" then none
  else if json.text = "" then none
  else some (addChoicesFromJson (Scene.mk key json.text none [])
    (json.choices.getD []))

end Scene

namespace Story

/-- Model of `Story.getScene(key)`: direct lookup in the collection (`none` = JS
`null`, the `|| null` of the source). -/
def getScene (story : Story) (key : String) : Option Scene :=
  (story.scenes.find? (fun p => decide (p.1 = key))).map Prod.snd

/-- Whether the collection has an entry for `key` (`this.scenes.has(key)`). -/
def hasKey (story : Story) (key : String) : Bool :=
  story.scenes.any (fun p => decide (p.1 = key))

/-- Rewrite the scene stored under `key` in place (JS mutates the stored
object through a reference; the collection's keys and order are untouched). -/
def updateScene (story : Story) (key : String) (f : Scene → Scene) : Story :=
  { story with
    scenes := story.scenes.map (fun p => if p.1 = key then (p.1, f p.2) else p) }

/-- Delete the entry stored under `key` (`this.scenes.delete(key)`). -/
def deleteScene (story : Story) (key : String) : Story :=
  { story with scenes := story.scenes.filter (fun p => decide (p.1 ≠ key)) }

/-- The walk of `Story.getSceneDepth`: follow `parent` references counting
steps.  The JS walk follows object references and never terminates on a
parent cycle (documented input-trust in the spec); the flattened model
resolves each parent through the collection, stops after the step to an
unresolvable reference, and carries fuel (larger than any resolvable acyclic
chain) for the cycle case. -/
def parentChainDepth (scenes : List (String × Scene)) : Nat → Scene → Int
  | 0, _ => 0
  | fuel + 1, cur =>
      match cur.parent with
      | none => 0
      | some pk =>
          match (scenes.find? (fun p => decide (p.1 = pk))).map Prod.snd with
          | none => 1
          | some p => 1 + parentChainDepth scenes fuel p

/-- Model of `Story.getSceneDepth(scenes, scene)`: −1 when the scene's key is not in
the collection, else the length of its parent chain. -/
def getSceneDepth (scenes : List (String × Scene)) (scene : Scene) : Int :=
  if scenes.any (fun p => decide (p.1 = scene.key)) then
    parentChainDepth scenes (scenes.length + 1) scene
  else -1

/-- One entry of the DFS result: `{key, scene, depth}`. -/
structure SceneRef where
  key : String
  scene : Scene
  depth : Int
  deriving Repr, DecidableEq

/-- A stack frame of the iterative DFS: `{scene, depth}`. -/
structure Frame where
  scene : Scene
  depth : Int
  deriving Repr, DecidableEq

/-- The keys of the scene values stored in the collection; every scene a
`getScene` lookup can produce has its key in this list. -/
def sceneValKeys (story : Story) : List String :=
  story.scenes.map (fun p => p.2.key)

/-- The `while (stack.length > 0)` loop of `Story.getScenesDFS`.  Each
iteration pops a frame; an already-visited key is skipped, otherwise the
frame is emitted, its key marked visited, and its resolvable, unvisited
children pushed in reverse order (so the head of the list is the next pop,
preserving the original left-to-right choice order).  `U` over-approximates
every key a frame can carry; the loop terminates because each iteration
either shrinks the stack or marks a fresh key of `U` visited — exactly the
argument that makes the JS loop finite even on cyclic graphs. -/
def dfsLoop (story : Story) (U : List String)
    (hU : ∀ k s, story.getScene k = some s → s.key ∈ U) :
    (stack : List Frame) → (visited : List String) →
    (hs : ∀ f ∈ stack, f.scene.key ∈ U) → List SceneRef
  | [], _, _ => []
  | f :: rest, visited, hs =>
      if hv : f.scene.key ∈ visited then
        dfsLoop story U hU rest visited
          (fun g hg => hs g (List.mem_cons_of_mem _ hg))
      else
        let visited' := f.scene.key :: visited
        let children : List Scene :=
          ((f.scene.choices.map Prod.fst).filterMap story.getScene).filter
            (fun c => decide (c.key ∉ visited'))
        SceneRef.mk f.scene.key f.scene f.depth ::
          dfsLoop story U hU
            (children.map (fun c => Frame.mk c (f.depth + 1)) ++ rest) visited'
            (by
              intro g hg
              rcases List.mem_append.mp hg with hg | hg
              · rcases List.mem_map.mp hg with ⟨c, hc, hceq⟩
                have hc2 : c ∈ (f.scene.choices.map Prod.fst).filterMap
                    story.getScene := List.mem_of_mem_filter hc
                rcases List.mem_filterMap.mp hc2 with ⟨k, _, hk⟩
                rw [← hceq]
                exact hU k c hk
              · exact hs g (List.mem_cons_of_mem _ hg))
  termination_by stack visited _ =>
    ((U.toFinset \ visited.toFinset).card, stack.length)
  decreasing_by
  · apply Prod.Lex.right
    simp
  · apply Prod.Lex.left
    rw [List.toFinset_cons, Finset.sdiff_insert]
    apply Finset.card_erase_lt_of_mem
    rw [Finset.mem_sdiff, List.mem_toFinset, List.mem_toFinset]
    exact ⟨hs f (List.mem_cons_self _ _), hv⟩

/-- The body of `Story.getScenesDFS` once the guards have passed: seed the
stack with `{scene: startScene, depth: baseDepth}` and run the loop. -/
def getScenesDFSFrom (story : Story) (start : Scene) (baseDepth : Int) :
    List SceneRef :=
  dfsLoop story (start.key :: sceneValKeys story)
    (fun k s h => List.mem_cons_of_mem _ (by
      unfold getScene at h
      cases hf : story.scenes.find? (fun p => decide (p.1 = k)) with
      | none => rw [hf] at h; simp at h
      | some p =>
          rw [hf] at h
          simp only [Option.map_some'] at h
          cases h
          exact List.mem_map_of_mem _ (List.mem_of_find?_eq_some hf)))
    [Frame.mk start baseDepth] []
    (by
      intro f hf
      rcases List.mem_singleton.mp hf with rfl
      exact List.mem_cons_self _ _)

/-- Model of `Story.getScenesDFS(story, startScene)` with an explicit start scene.
The JS guard `startScene !== story.root` is an object-identity test; in the
flattened model the root reference is identified by its key, so the base
depth is 0 exactly when the root key matches the start scene's key. -/
def getScenesDFSAt (story : Story) (start : Scene) : List SceneRef :=
  let baseDepth : Int :=
    if story.root = some start.key then 0 else getSceneDepth story.scenes start
  getScenesDFSFrom story start baseDepth

/-- Model of `Story.getScenesDFS(story)` with the default argument
`startScene = story.root`: empty when the root is unset (`!startScene`),
else a traversal from the root at base depth 0 (the start scene *is* the
root, so the `startScene !== story.root` branch is not taken).  A root key
that no longer resolves in the collection is a stale reference the
flattened model cannot follow; it yields the empty traversal here. -/
def getScenesDFS (story : Story) : List SceneRef :=
  match story.root with
  | none => []
  | some rk =>
      match story.getScene rk with
      | none => []
      | some s => getScenesDFSFrom story s 0

/-- The scan of `Story.hasCircle` over the DFS result: for each emitted
scene, report a cycle as soon as one of its choice targets resolves to a
scene whose key is already in the `visited` set; only afterwards is the
current scene's key added to `visited`. -/
def hasCircleGo (story : Story) : List SceneRef → List String → Bool
  | [], _ => false
  | e :: rest, visited =>
      if e.scene.choices.any (fun c =>
          match story.getScene c.1 with
          | some ns => decide (ns.key ∈ visited)
          | none => false) then true
      else hasCircleGo story rest (e.scene.key :: visited)

/-- Model of `Story.hasCircle(story)`: run the DFS from the root, then scan the
emitted scenes in order with an initially empty visited set. -/
def hasCircle (story : Story) : Bool :=
  hasCircleGo story (getScenesDFS story) []

/-- Model of `Story.findParent(sceneKey)`: first collection entry (in insertion
order) whose scene's choices contain `sceneKey`.  The model keeps the whole
entry so callers can address the found scene's slot in the collection. -/
def findParentEntry (story : Story) (sceneKey : String) :
    Option (String × Scene) :=
  story.scenes.find? (fun p => p.2.choices.any (fun c => decide (c.1 = sceneKey)))

/-- The default choice label used by `addScene`:
`scene.text || "to " + scene.key` (the empty string is falsy). -/
def defLabel (scene : Scene) : String :=
  if scene.text = "" then "to " ++ scene.key else scene.text

/-- The parent-search step of `Story.addScene` for a parentless incoming
scene: if some existing scene's choices already reference the new key
(`findParent`), that scene becomes the parent and receives the choice edge;
otherwise the root receives the edge and becomes the parent. -/
def addSceneLink (story1 : Story) (scene : Scene) (rk : String) : Story :=
  if scene.parent = none then
    match findParentEntry story1 scene.key with
    | some pe =>
        let s3 := updateScene story1 scene.key
          (fun s => { s with parent := some pe.2.key })
        updateScene s3 pe.1
          (fun s => (s.addChoice (defLabel scene) scene.key).1)
    | none =>
        -- `this.root.addChoice(...)`: a mutation through the root
        -- reference.  A stale root key (absent from the collection,
        -- or — since the new key was absent — equal to it) addresses
        -- a detached object in JS, so the collection is unchanged.
        let s3 :=
          if rk = scene.key then story1
          else updateScene story1 rk
            (fun s => (s.addChoice (defLabel scene) scene.key).1)
        updateScene s3 scene.key (fun s => { s with parent := some rk })
  else story1

/-- The `ensure parent linkage integrity` step of `Story.addScene`: if the
scene's parent — possibly just assigned — resolves in the collection, that
parent also receives the choice edge (a duplicate insert is a silent
no-op). -/
def addSceneEnsure (story2 : Story) (scene : Scene) : Story :=
  match (story2.getScene scene.key).bind Scene.parent with
  | some pk =>
      if story2.hasKey pk then
        updateScene story2 pk
          (fun s => (s.addChoice (defLabel scene) scene.key).1)
      else story2
  | none => story2

/-- Model of `Story.addScene(scene)`: false on duplicate key, else insert.  The first
scene ever inserted becomes the root and returns immediately; otherwise the
parent-search and linkage-integrity steps run in order. -/
def addScene (story : Story) (scene : Scene) : Story × Bool :=
  if story.hasKey scene.key then (story, false)
  else
    let story1 : Story :=
      { story with scenes := story.scenes ++ [(scene.key, scene)] }
    match story.root with
    | none => ({ story1 with root := some scene.key }, true)
    | some rk => (addSceneEnsure (addSceneLink story1 scene rk) scene, true)

/-- Model of `Story.editScene(key, newText, newChoices)`: false when the key is
absent (with a warning), else delegate to `updateContent` on the stored
scene; `none` propagates the `TypeError` that `updateContent` can throw. -/
def editScene (story : Story) (key : String) (newText : Option String)
    (newChoices : Option (List (String × String))) : Option (Story × Bool) :=
  match story.getScene key with
  | none => some (story, false)
  | some scene =>
      match scene.updateContent newText newChoices with
      | none => none
      | some (s', b) => some (updateScene story key (fun _ => s'), b)

/-- Model of `Story.changeSceneParent(key, newParentKey)`.  The source warns on a
missing scene but does *not* return, so `scene.parent` then throws a
`TypeError` (`none`).  Likewise `null.choices` throws for a parentless
scene, and `undefined.text` throws when the parent carries no choice edge
to the scene.  When the edge exists its value is a *string*, so
`oldParentChoiceText = <string>.text` is `undefined` and the
`|| "to " + key` fallback always supplies the new edge's label. -/
def changeSceneParent (story : Story) (key newParentKey : String) :
    Option (Story × Bool) :=
  match story.getScene key with
  | none => none
  | some scene =>
      match scene.parent with
      | none => none
      | some pk =>
          match story.getScene pk with
          | none => none
              -- flattening: a parent reference whose key is absent is a
              -- detached object the model cannot follow
          | some p =>
              match p.getChoice scene.key with
              | none => none
              | some _ =>
                  let story1 := updateScene story pk
                    (fun s => s.removeChoice scene.key)
                  match story1.getScene newParentKey with
                  | none =>
                      some (updateScene story1 key
                        (fun s => { s with parent := none }), false)
                  | some _ =>
                      let story2 := updateScene story1 key
                        (fun s => { s with parent := some newParentKey })
                      let story3 := updateScene story2 newParentKey
                        (fun s => (s.addChoice ("to " ++ scene.key) scene.key).1)
                      some (story3, true)

/-- The first half of `Story.removeScene(key)`: `none` when the key is
absent; otherwise the collection after the parent's choice edge to the
scene was removed, together with the DFS-reachable list
(`Story.getScenesDFS(this, scene)`) computed on that collection — the
`scene` variable still references the stored (possibly just mutated)
object, so the traversal restarts from the current stored scene. -/
def removeScenePrep (story : Story) (key : String) :
    Option (Story × List SceneRef) :=
  match story.getScene key with
  | none => none
  | some scene =>
      let story1 :=
        match scene.parent with
        | some pk => updateScene story pk (fun s => s.removeChoice scene.key)
        | none => story
      let scene1 := (story1.getScene key).getD scene
      some (story1, getScenesDFSAt story1 scene1)

/-- Model of `Story.removeScene(key)`: false when absent; else delete every key the
DFS emitted, iterating the emitted list in reverse order, and return
true. -/
def removeScene (story : Story) (key : String) : Story × Bool :=
  match removeScenePrep story key with
  | none => (story, false)
  | some (story1, below) =>
      (below.reverse.foldl (fun st e => st.deleteScene e.key) story1, true)

/-- Model of `Story.toJSON()`: serialize every scene, insertion order preserved. -/
def toJSON (story : Story) : List (String × Scene.SceneJSON) :=
  story.scenes.map (fun p => (p.1, p.2.toJSON))

/-- The keys `removeScene(key)` deletes: the DFS-emission list it computes
after detaching the parent edge (empty when `key` is absent). -/
def cascadeKeys (story : Story) (key : String) : List String :=
  match removeScenePrep story key with
  | none => []
  | some (_, below) => below.map SceneRef.key

/-- The root/collection consistency property of §3 of the spec, on one
story state: an unset root only on the empty collection, and a set root
whose key the collection resolves. -/
def rootInvB (story : Story) : Bool :=
  match story.root with
  | none => story.scenes.isEmpty
  | some r => story.hasKey r

end Story

open Story

/-! ## Concrete fixtures

Story states used by the concrete claims, written out directly as the graph
states the spec's §8 properties describe (scene values carry the same keys
as their collection slots, parents match the choice edges). -/

/-- Chain A→B→C: scene A. -/
def chainA : Scene := ⟨"A", "ta", none, [("B", "go B")]⟩

/-- Chain A→B→C: scene B. -/
def chainB : Scene := ⟨"B", "tb", some "A", [("C", "go C")]⟩

/-- Chain A→B→C: scene C (leaf). -/
def chainC : Scene := ⟨"C", "tc", some "B", []⟩

/-- The three-scene chain A→B→C rooted at A. -/
def chainStory : Story :=
  ⟨[("A", chainA), ("B", chainB), ("C", chainC)], some "A"⟩

/-- Scene C with a back-edge to A. -/
def cycC : Scene := ⟨"C", "tc", some "B", [("A", "back")]⟩

/-- The cyclic graph A→B→C→A rooted at A. -/
def cycStory : Story :=
  ⟨[("A", chainA), ("B", chainB), ("C", cycC)], some "A"⟩

/-- The cyclic graph A→B→A rooted at A. -/
def cyc2Story : Story :=
  ⟨[("A", ⟨"A", "ta", none, [("B", "x")]⟩),
    ("B", ⟨"B", "tb", some "A", [("A", "y")]⟩)], some "A"⟩

/-- A story with no scenes and no root. -/
def emptyStory : Story := ⟨[], none⟩

/-- A single-scene story with no choices. -/
def singleStory : Story := ⟨[("A", ⟨"A", "ta", none, []⟩)], some "A"⟩

/-- A single scene whose only choice is a self-loop A→A. -/
def selfLoopStory : Story :=
  ⟨[("A", ⟨"A", "ta", none, [("A", "loop")]⟩)], some "A"⟩

/-- External-reference fixture: A→B, A→C and B→C, so C is a descendant of B
but also referenced by the edge A→C from outside B's subtree. -/
def extA : Scene := ⟨"A", "ta", none, [("B", "to B"), ("C", "to C")]⟩

/-- Scene B of the external-reference fixture. -/
def extB : Scene := ⟨"B", "tb", some "A", [("C", "inner")]⟩

/-- Scene C of the external-reference fixture. -/
def extC : Scene := ⟨"C", "tc", some "B", []⟩

/-- The external-reference story rooted at A. -/
def extStory : Story := ⟨[("A", extA), ("B", extB), ("C", extC)], some "A"⟩

/-- Reparenting fixture: root X with an edge to B labelled
"enter the cave" and an edge to A; A and B children of X. -/
def parStory : Story :=
  ⟨[("X", ⟨"X", "tx", none, [("A", "to A"), ("B", "enter the cave")]⟩),
    ("A", ⟨"A", "tA", some "X", []⟩),
    ("B", ⟨"B", "tB", some "X", []⟩)], some "X"⟩

/-- Edit fixture: a single scene with non-empty text "a" and no choices. -/
def editStory : Story := ⟨[("A", ⟨"A", "a", none, []⟩)], some "A"⟩

/-- Operation sequence st0 → st4: the empty story. -/
def seqSt0 : Story := ⟨[], none⟩

/-- After addScene A: A becomes the root. -/
def seqSt1 : Story := (addScene seqSt0 ⟨"A", "Scene A", none, []⟩).1

/-- After addScene B: the root A gains a choice edge to B. -/
def seqSt2 : Story := (addScene seqSt1 ⟨"B", "Scene B", none, []⟩).1

/-- After editScene clears A's choices (B becomes unreachable from A). -/
def seqSt3 : Story :=
  ((editScene seqSt2 "A" (some "x") (some [])).getD (seqSt2, false)).1

/-- After removeScene A: only A is reachable from A, so only A is deleted. -/
def seqSt4 : Story := (removeScene seqSt3 "A").1

/-- A scene with non-empty key, text and two choices, for round-trip
witnesses. -/
def rtScene : Scene := ⟨"A", "hello", none, [("B", "go"), ("C", "run")]⟩

/-! ## Claim theorems -/

/-- C1: `getScenesDFS` from the root of the three-scene chain A→B→C returns
exactly the entries for A, B, C at depths 0, 1, 2 in that order; on the
cyclic graph A→B→C→A the traversal (which terminates, the model's loop
being total) returns each of A, B, C exactly once, in the same order. -/
theorem getScenesDFS_chain_and_cycle :
    getScenesDFS chainStory =
      [⟨"A", chainA, 0⟩, ⟨"B", chainB, 1⟩, ⟨"C", chainC, 2⟩] ∧
    getScenesDFS cycStory =
      [⟨"A", chainA, 0⟩, ⟨"B", chainB, 1⟩, ⟨"C", cycC, 2⟩] := by
  constructor <;>
    simp [getScenesDFS, chainStory, cycStory, getScene, chainA, chainB,
      chainC, cycC, getScenesDFSFrom, dfsLoop, sceneValKeys]

/-- C2: `hasCircle` is true on A→B→C→A and on A→B→A, and false on the
chain A→B→C, on the empty story, and on a single scene with no choices. -/
theorem hasCircle_examples :
    hasCircle cycStory = true ∧ hasCircle cyc2Story = true ∧
    hasCircle chainStory = false ∧ hasCircle emptyStory = false ∧
    hasCircle singleStory = false := by
  refine ⟨?_, ?_, ?_, ?_, ?_⟩ <;>
    simp [hasCircle, hasCircleGo, getScenesDFS, cycStory, cyc2Story,
      chainStory, emptyStory, singleStory, getScene, chainA, chainB, chainC,
      cycC, getScenesDFSFrom, dfsLoop, sceneValKeys]

/-- C10: on a single scene whose only choice is a self-loop, `hasCircle`
returns false — the self-edge is scanned before the scene itself is added
to the visited set, so it is never counted as a back-edge. -/
theorem hasCircle_self_loop_false : hasCircle selfLoopStory = false := by
  simp [hasCircle, hasCircleGo, getScenesDFS, selfLoopStory, getScene,
    getScenesDFSFrom, dfsLoop, sceneValKeys]

/-- C4: reparenting B (whose parent X holds the edge label
"enter the cave") onto A removes X's entry, sets B's parent to A and
returns true — but the new edge on A is labelled with the default "to B",
not the original label: the source reads `.text` off the string label, gets
`undefined`, and falls back to the default. -/
theorem changeSceneParent_default_label :
    changeSceneParent parStory "B" "A" =
      some (⟨[("X", ⟨"X", "tx", none, [("A", "to A")]⟩),
              ("A", ⟨"A", "tA", some "X", [("B", "to B")]⟩),
              ("B", ⟨"B", "tB", some "A", []⟩)], some "X"⟩, true) ∧
    "to B" ≠ "enter the cave" := by decide

/-- C6: `editScene` with choices equal to the current ones and `newText`
equal to the current non-empty text returns true, not false — the source
never compares `newText` with the existing text before setting it. -/
theorem editScene_unchanged_returns_true :
    editScene editStory "A" (some "a") (some []) = some (editStory, true) := by
  decide

/-- C7: `updateContent` with the "no choices" sentinel always faults (the
`choicesAreEqual` call dereferences `null.size` before the clearing branch
can run), for every scene and every `newText`. -/
theorem updateContent_null_newChoices_faults (s : Scene) (t : Option String) :
    s.updateContent t none = none := by
  simp [Scene.updateContent, Scene.choicesAreEqual]

/-- C8: `changeSceneParent` on a key absent from the collection faults (the
missing-scene warning is not followed by a return, so `scene.parent` throws
a TypeError) instead of returning false. -/
theorem changeSceneParent_absent_key_faults (story : Story) (k p : String)
    (h : story.getScene k = none) :
    changeSceneParent story k p = none := by
  unfold changeSceneParent
  rw [h]

/-- Witness: the fault of `changeSceneParent` at a concrete absent key. -/
theorem changeSceneParent_absent_key_faults_witness :
    changeSceneParent emptyStory "X" "A" = none :=
  changeSceneParent_absent_key_faults emptyStory "X" "A" rfl

/-! ## Helper lemmas -/

theorem find?_filter_of_imp {α : Type} (l : List α) (p q : α → Bool)
    (h : ∀ x, p x = true → q x = true) :
    (l.filter q).find? p = l.find? p := by
  induction l with
  | nil => rfl
  | cons a l ih =>
      by_cases hq : q a = true
      · by_cases hp : p a = true
        · simp [List.filter_cons, hq, List.find?_cons, hp]
        · simp [List.filter_cons, hq, List.find?_cons, hp, ih]
      · have hp : ¬ p a = true := fun hpa => hq (h a hpa)
        simp [List.filter_cons, hq, List.find?_cons, hp, ih]

theorem getScene_deleteScene (st : Story) (k k' : String) :
    (st.deleteScene k).getScene k' = if k' = k then none else st.getScene k' := by
  unfold Story.deleteScene Story.getScene
  by_cases h : k' = k
  · subst h
    rw [if_pos rfl]
    have hnone : (st.scenes.filter (fun p => decide (p.1 ≠ k'))).find?
        (fun p => decide (p.1 = k')) = none := by
      rw [List.find?_eq_none]
      intro x hx
      have hmem := List.of_mem_filter hx
      simp at hmem ⊢
      exact hmem
    rw [hnone]
    rfl
  · rw [if_neg h]
    have := find?_filter_of_imp st.scenes (fun p => decide (p.1 = k'))
      (fun p => decide (p.1 ≠ k))
      (by
        intro x hx
        simp at hx ⊢
        rw [hx]
        exact h)
    rw [this]

theorem root_foldDelete (l : List Story.SceneRef) (st : Story) :
    (l.foldl (fun s e => s.deleteScene e.key) st).root = st.root := by
  induction l generalizing st with
  | nil => rfl
  | cons e l ih => simp only [List.foldl_cons]; rw [ih]; rfl

theorem getScene_foldDelete_none (l : List Story.SceneRef) (st : Story)
    (k : String) (h : st.getScene k = none) :
    (l.foldl (fun s e => s.deleteScene e.key) st).getScene k = none := by
  induction l generalizing st with
  | nil => exact h
  | cons e l ih =>
      simp only [List.foldl_cons]
      apply ih
      rw [getScene_deleteScene]
      by_cases hk : k = e.key
      · simp [hk]
      · simp [hk, h]

theorem getScene_foldDelete_mem (l : List Story.SceneRef) (st : Story)
    (k : String) (h : k ∈ l.map Story.SceneRef.key) :
    (l.foldl (fun s e => s.deleteScene e.key) st).getScene k = none := by
  induction l generalizing st with
  | nil => simp at h
  | cons e l ih =>
      simp only [List.foldl_cons]
      by_cases hk : k = e.key
      · apply getScene_foldDelete_none
        rw [getScene_deleteScene]
        simp [hk]
      · apply ih
        simp only [List.map_cons, List.mem_cons] at h
        rcases h with h | h
        · exact absurd h hk
        · exact h

theorem getScene_foldDelete_not_mem (l : List Story.SceneRef) (st : Story)
    (k : String) (h : k ∉ l.map Story.SceneRef.key) :
    (l.foldl (fun s e => s.deleteScene e.key) st).getScene k = st.getScene k := by
  induction l generalizing st with
  | nil => rfl
  | cons e l ih =>
      simp only [List.map_cons, List.mem_cons, not_or] at h
      simp only [List.foldl_cons]
      rw [ih _ h.2, getScene_deleteScene, if_neg h.1]

theorem keys_updateScene (st : Story) (k : String) (f : Scene → Scene) :
    (st.updateScene k f).scenes.map Prod.fst = st.scenes.map Prod.fst := by
  unfold Story.updateScene
  simp only [List.map_map]
  apply List.map_congr_left
  intro p _
  by_cases h : p.1 = k <;> simp [h]

theorem hasKey_eq_any_keys (st : Story) (k : String) :
    st.hasKey k = (st.scenes.map Prod.fst).any (fun x => decide (x = k)) := by
  rcases st with ⟨L, r⟩
  unfold Story.hasKey
  simp only
  induction L with
  | nil => rfl
  | cons p L ih => simp [List.any_cons, ih]

theorem hasKey_updateScene (st : Story) (k' : String) (f : Scene → Scene)
    (k : String) : (st.updateScene k' f).hasKey k = st.hasKey k := by
  rw [hasKey_eq_any_keys, hasKey_eq_any_keys, keys_updateScene]

theorem hasKey_eq_isSome (st : Story) (k : String) :
    st.hasKey k = (st.getScene k).isSome := by
  unfold Story.hasKey Story.getScene
  rcases st with ⟨L, r⟩
  simp only
  induction L with
  | nil => rfl
  | cons p L ih =>
      by_cases h : p.1 = k
      · simp [List.any_cons, List.find?_cons, h]
      · simp [List.any_cons, List.find?_cons, h, ih]

theorem rootInvB_some (st : Story) (r : String) (h : st.root = some r) :
    rootInvB st = st.hasKey r := by
  unfold Story.rootInvB
  rw [h]

theorem rootInvB_updateScene (st : Story) (k : String) (f : Scene → Scene) :
    rootInvB (st.updateScene k f) = rootInvB st := by
  unfold Story.rootInvB
  rw [show (st.updateScene k f).root = st.root from rfl]
  cases hr : st.root with
  | none =>
      simp only
      unfold Story.updateScene
      rcases st with ⟨L, r⟩
      cases L <;> rfl
  | some r =>
      simp only
      exact hasKey_updateScene st k f r

/-- C5 counterexample: in `extStory`, C is a descendant of B but also
referenced by the edge A→C from outside B's subtree (A survives the
removal and still carries that edge) — yet `removeScene "B"` deletes C
anyway: the cascade covers every reachable scene, not only the exclusively
reachable ones. -/
theorem removeScene_cascades_beyond_exclusive :
    extA.choices = [("B", "to B"), ("C", "to C")] ∧
    (removeScene extStory "B").1.getScene "A" =
      some ⟨"A", "ta", none, [("C", "to C")]⟩ ∧
    (removeScene extStory "B").1.getScene "C" = none := by
  have hrm : removeScene extStory "B" =
      (⟨[("A", ⟨"A", "ta", none, [("C", "to C")]⟩)], some "A"⟩, true) := by
    simp [removeScene, removeScenePrep, extStory, extA, extB, extC,
      updateScene, getScene, getScenesDFSAt, getSceneDepth, parentChainDepth,
      getScenesDFSFrom, dfsLoop, sceneValKeys, Scene.removeChoice, deleteScene]
  refine ⟨rfl, ?_, ?_⟩ <;> rw [hrm] <;> rfl

/-- C5 (amended): `removeScene` deletes *every* scene in the DFS-reachable
set it computes from the removed scene (after detaching the parent edge),
whether or not a scene in that set is still referenced from outside the
removed subtree, and returns true whenever the key was found. -/
theorem removeScene_deletes_all_reachable (story story1 : Story) (key : String)
    (below : List Story.SceneRef)
    (h : removeScenePrep story key = some (story1, below)) :
    (removeScene story key).2 = true ∧
    ∀ e ∈ below, (removeScene story key).1.getScene e.key = none := by
  unfold Story.removeScene
  rw [h]
  refine ⟨rfl, fun e he => ?_⟩
  apply getScene_foldDelete_mem
  simp only [List.mem_map, List.mem_reverse]
  exact ⟨e, he, rfl⟩

/-- Witness for the amended C5 theorem at the concrete fixture. -/
theorem removeScene_deletes_all_reachable_witness :
    (removeScene extStory "B").2 = true ∧
    (removeScene extStory "B").1.getScene "C" = none := by
  have hprep : removeScenePrep extStory "B" =
      some (⟨[("A", ⟨"A", "ta", none, [("C", "to C")]⟩),
              ("B", extB), ("C", extC)], some "A"⟩,
        [⟨"B", extB, 1⟩, ⟨"C", extC, 2⟩]) := by
    simp [removeScenePrep, extStory, extA, extB, extC, updateScene, getScene,
      getScenesDFSAt, getSceneDepth, parentChainDepth, getScenesDFSFrom,
      dfsLoop, sceneValKeys, Scene.removeChoice]
  have h := removeScene_deletes_all_reachable extStory _ "B" _ hprep
  exact ⟨h.1, h.2 ⟨"C", extC, 2⟩ (by decide)⟩

/-- Rebuilding lemma for deserialization: folding `addChoice` over the
serialized image of a choice list with pairwise-distinct, fresh target keys
appends exactly that list. -/
theorem addChoicesFromJson_rebuild (l : List (String × String)) :
    ∀ s : Scene, (l.map Prod.fst).Nodup →
    (∀ c ∈ l, c.1 ∉ s.choices.map Prod.fst) →
    Scene.addChoicesFromJson s (l.map (fun c => Scene.ChoiceRec.mk c.2 c.1)) =
      { s with choices := s.choices ++ l } := by
  induction l with
  | nil =>
      intro s _ _
      simp [Scene.addChoicesFromJson]
  | cons c l ih =>
      intro s hnd hdisj
      simp only [List.map_cons, Scene.addChoicesFromJson, List.foldl_cons]
      have hfresh : s.choices.any (fun d => decide (d.1 = c.1)) = false := by
        rw [List.any_eq_false]
        intro x hx
        simp only [decide_eq_true_eq]
        intro hx1
        exact hdisj c (List.mem_cons_self c l)
          (hx1 ▸ List.mem_map_of_mem Prod.fst hx)
      have hstep : s.addChoiceD c.2 c.1 =
          { s with choices := s.choices ++ [(c.1, c.2)] } := by
        unfold Scene.addChoiceD Scene.addChoice
        rw [hfresh]
        rfl
      rw [hstep]
      have hnd' : (l.map Prod.fst).Nodup := hnd.of_cons
      have hdisj' : ∀ d ∈ l,
          d.1 ∉ ({ s with choices := s.choices ++ [(c.1, c.2)] } : Scene).choices.map Prod.fst := by
        intro d hd
        simp only [List.map_append, List.mem_append, List.map_cons, List.map_nil,
          List.mem_singleton, not_or]
        constructor
        · exact hdisj d (List.mem_cons_of_mem c hd)
        · intro hdc
          have : c.1 ∈ l.map Prod.fst := hdc ▸ List.mem_map_of_mem Prod.fst hd
          exact (List.nodup_cons.mp hnd).1 this
      have hrec := ih ({ s with choices := s.choices ++ [(c.1, c.2)] }) hnd' hdisj'
      unfold Scene.addChoicesFromJson at hrec
      rw [hrec]
      simp

/-- C3 counterexample: a Scene with empty text (and likewise one with an
empty key) serializes fine, but deserializing the result fails — the
source's falsy-string guards reject it — so the serialize–deserialize–
serialize round trip does not exist for every Scene. -/
theorem fromJson_rejects_falsy_fields :
    Scene.fromJson "A" (Scene.toJSON ⟨"A", "", none, []⟩) = none ∧
    Scene.fromJson "" (Scene.toJSON ⟨"", "x", none, []⟩) = none := by decide

/-- C3 (amended): for every Scene with non-empty key, non-empty text and
pairwise-distinct choice targets (the Map invariant), deserializing the
serialized form succeeds and re-serializing yields the original output; and
a Scene with no choices serializes without a `choices` field. -/
theorem toJSON_fromJson_roundtrip (s : Scene) (hk : s.key ≠ "")
    (ht : s.text ≠ "") (hnd : (s.choices.map Prod.fst).Nodup) :
    (Scene.fromJson s.key s.toJSON).map Scene.toJSON = some s.toJSON ∧
    (s.choices = [] → s.toJSON = { text := s.text, choices := none }) := by
  have htj : s.toJSON.text = s.text := by
    simp only [Scene.toJSON]
    split <;> rfl
  constructor
  · unfold Scene.fromJson
    rw [if_neg hk, htj, if_neg ht]
    by_cases hc : s.choices = []
    · simp [Scene.toJSON, hc, Scene.addChoicesFromJson]
    · have harr : s.toJSON.choices =
          some (s.choices.map (fun c => Scene.ChoiceRec.mk c.2 c.1)) := by
        simp only [Scene.toJSON]
        rw [if_neg (by simp [List.isEmpty_iff, List.map_eq_nil_iff, hc])]
      rw [harr]
      simp only [Option.getD_some, Option.map_some']
      rw [addChoicesFromJson_rebuild s.choices ⟨s.key, s.text, none, []⟩ hnd
        (by simp)]
      simp [Scene.toJSON]
  · intro h
    simp [Scene.toJSON, h]

/-- Witness for the amended C3 theorem at a concrete two-choice scene. -/
theorem toJSON_fromJson_roundtrip_witness :
    (Scene.fromJson rtScene.key rtScene.toJSON).map Scene.toJSON =
      some rtScene.toJSON ∧
    (rtScene.choices = [] →
      rtScene.toJSON = { text := rtScene.text, choices := none }) :=
  toJSON_fromJson_roundtrip rtScene (by decide) (by decide) (by decide)

theorem addSceneLink_same (st : Story) (scene : Scene) (rk : String) :
    (addSceneLink st scene rk).root = st.root ∧
    ∀ k, (addSceneLink st scene rk).hasKey k = st.hasKey k := by
  unfold Story.addSceneLink
  by_cases hp : scene.parent = none
  · rw [if_pos hp]
    cases hfp : findParentEntry st scene.key with
    | some pe =>
        exact ⟨rfl, fun k => by rw [hasKey_updateScene, hasKey_updateScene]⟩
    | none =>
        by_cases hrk : rk = scene.key
        · rw [if_pos hrk]
          exact ⟨rfl, fun k => by rw [hasKey_updateScene]⟩
        · rw [if_neg hrk]
          exact ⟨rfl, fun k => by rw [hasKey_updateScene, hasKey_updateScene]⟩
  · rw [if_neg hp]
    exact ⟨rfl, fun k => rfl⟩

theorem addSceneEnsure_same (st : Story) (scene : Scene) :
    (addSceneEnsure st scene).root = st.root ∧
    ∀ k, (addSceneEnsure st scene).hasKey k = st.hasKey k := by
  unfold Story.addSceneEnsure
  cases hm : (st.getScene scene.key).bind Scene.parent with
  | none => exact ⟨rfl, fun k => rfl⟩
  | some pk =>
      dsimp only
      by_cases hk : st.hasKey pk = true
      · rw [if_pos hk]
        exact ⟨rfl, fun k => by rw [hasKey_updateScene]⟩
      · rw [if_neg hk]
        exact ⟨rfl, fun k => rfl⟩

theorem removeScenePrep_same (story story1 : Story) (key : String)
    (below : List Story.SceneRef)
    (h : removeScenePrep story key = some (story1, below)) :
    story1.root = story.root ∧ ∀ k, story1.hasKey k = story.hasKey k := by
  unfold Story.removeScenePrep at h
  cases hg : story.getScene key with
  | none => rw [hg] at h; simp at h
  | some scene =>
      rw [hg] at h
      dsimp only at h
      cases hp : scene.parent with
      | none =>
          rw [hp] at h
          dsimp only at h
          injection h with h1
          injection h1 with h2 h3
          rw [← h2]
          exact ⟨rfl, fun k => rfl⟩
      | some pk =>
          rw [hp] at h
          dsimp only at h
          injection h with h1
          injection h1 with h2 h3
          rw [← h2]
          exact ⟨rfl, fun k => hasKey_updateScene story pk _ k⟩

/-- C9 (amended): the root/collection consistency property — an unset root
only on an empty collection, and a set root whose key the collection
resolves — holds for the empty story and is preserved by `addScene`, by
`editScene` and `changeSceneParent` whenever they return (rather than
fault), and by `removeScene` whenever the root's key is not in the cascade
it deletes.  (When the cascade does contain the root's key while other
scenes survive, the property breaks: `removeScene` never resets `root`.) -/
theorem rootInv_preserved_by_core_ops :
    (rootInvB emptyStory = true) ∧
    (∀ story scene, rootInvB story = true →
      rootInvB (addScene story scene).1 = true) ∧
    (∀ story key t nc out, editScene story key t nc = some out →
      rootInvB story = true → rootInvB out.1 = true) ∧
    (∀ story key npk out, changeSceneParent story key npk = some out →
      rootInvB story = true → rootInvB out.1 = true) ∧
    (∀ story key r, rootInvB story = true → story.root = some r →
      r ∉ cascadeKeys story key →
      rootInvB (removeScene story key).1 = true) := by
  refine ⟨rfl, ?_, ?_, ?_, ?_⟩
  · -- addScene
    intro story scene hinv
    unfold Story.addScene
    by_cases hdup : story.hasKey scene.key = true
    · rw [if_pos hdup]
      exact hinv
    · rw [if_neg hdup]
      cases hr : story.root with
      | none =>
          show rootInvB ⟨story.scenes ++ [(scene.key, scene)], some scene.key⟩ = true
          rw [rootInvB_some _ scene.key rfl]
          unfold Story.hasKey
          simp [List.any_append]
      | some rk =>
          show rootInvB (addSceneEnsure (addSceneLink
            ⟨story.scenes ++ [(scene.key, scene)], some rk⟩ scene rk) scene) = true
          have h1 := addSceneLink_same
            (⟨story.scenes ++ [(scene.key, scene)], some rk⟩ : Story) scene rk
          have h2 := addSceneEnsure_same (addSceneLink
            ⟨story.scenes ++ [(scene.key, scene)], some rk⟩ scene rk) scene
          have hroot : (addSceneEnsure (addSceneLink
              (⟨story.scenes ++ [(scene.key, scene)], some rk⟩ : Story)
              scene rk) scene).root = some rk := by
            rw [h2.1, h1.1]
          rw [rootInvB_some _ rk hroot, h2.2 rk, h1.2 rk]
          have hsrk : story.hasKey rk = true := by
            rw [← rootInvB_some story rk hr]
            exact hinv
          unfold Story.hasKey at hsrk ⊢
          simp [List.any_append, hsrk]
  · -- editScene
    intro story key t nc out h hinv
    unfold Story.editScene at h
    cases hg : story.getScene key with
    | none =>
        rw [hg] at h
        injection h with h1
        rw [← h1]
        exact hinv
    | some scene =>
        rw [hg] at h
        dsimp only at h
        cases hu : scene.updateContent t nc with
        | none => rw [hu] at h; exact absurd h (by simp)
        | some sb =>
            rcases sb with ⟨s', b⟩
            rw [hu] at h
            dsimp only at h
            injection h with h1
            rw [← h1]
            show rootInvB (updateScene story key fun _ => s') = true
            rw [rootInvB_updateScene]
            exact hinv
  · -- changeSceneParent
    intro story key npk out h hinv
    unfold Story.changeSceneParent at h
    cases hg : story.getScene key with
    | none => rw [hg] at h; exact absurd h (by simp)
    | some scene =>
        rw [hg] at h
        dsimp only at h
        cases hp : scene.parent with
        | none => rw [hp] at h; exact absurd h (by simp)
        | some pk =>
            rw [hp] at h
            dsimp only at h
            cases hpp : story.getScene pk with
            | none => rw [hpp] at h; exact absurd h (by simp)
            | some p =>
                rw [hpp] at h
                dsimp only at h
                cases hch : p.getChoice scene.key with
                | none => rw [hch] at h; exact absurd h (by simp)
                | some lbl =>
                    rw [hch] at h
                    dsimp only at h
                    cases hnp : (story.updateScene pk
                        (fun s => s.removeChoice scene.key)).getScene npk with
                    | none =>
                        rw [hnp] at h
                        injection h with h1
                        rw [← h1]
                        show rootInvB (updateScene (updateScene story pk
                          (fun s => s.removeChoice scene.key)) key
                          (fun s => { s with parent := none })) = true
                        rw [rootInvB_updateScene, rootInvB_updateScene]
                        exact hinv
                    | some np =>
                        rw [hnp] at h
                        injection h with h1
                        rw [← h1]
                        show rootInvB (updateScene (updateScene (updateScene story pk
                          (fun s => s.removeChoice scene.key)) key
                          (fun s => { s with parent := some npk })) npk
                          (fun s => (s.addChoice ("to " ++ scene.key) scene.key).1)) = true
                        rw [rootInvB_updateScene, rootInvB_updateScene,
                          rootInvB_updateScene]
                        exact hinv
  · -- removeScene with surviving root key
    intro story key r hinv hroot hnmem
    unfold Story.removeScene
    cases hprep : removeScenePrep story key with
    | none => exact hinv
    | some pr =>
        rcases pr with ⟨story1, below⟩
        dsimp only
        have hsame := removeScenePrep_same story story1 key below hprep
        have hnb : r ∉ below.map Story.SceneRef.key := by
          unfold Story.cascadeKeys at hnmem
          rw [hprep] at hnmem
          exact hnmem
        have hfroot : (below.reverse.foldl
            (fun st e => st.deleteScene e.key) story1).root = some r := by
          rw [root_foldDelete, hsame.1, hroot]
        rw [rootInvB_some _ r hfroot]
        rw [hasKey_eq_isSome, getScene_foldDelete_not_mem _ _ _
          (by
            simp only [List.mem_map, List.mem_reverse]
            intro hc
            rcases hc with ⟨e, he, hek⟩
            exact hnb (List.mem_map.mpr ⟨e, he, hek⟩)),
          ← hasKey_eq_isSome, hsame.2 r]
        rw [← rootInvB_some story r hroot]
        exact hinv

/-- C9 counterexample: the sequence addScene A, addScene B, editScene
(clearing A's choices), removeScene A ends with a non-empty collection
whose root still references the deleted key "A" — the collection does not
map the root's key to any Scene, refuting the claim that the invariant
survives every operation sequence. -/
theorem rootInv_violated_concrete :
    seqSt4.scenes ≠ [] ∧ seqSt4.root = some "A" ∧
    seqSt4.getScene "A" = none := by
  have h3 : seqSt3 = ⟨[("A", ⟨"A", "x", none, []⟩),
      ("B", ⟨"B", "Scene B", some "A", []⟩)], some "A"⟩ := by decide
  have h4 : seqSt4 = ⟨[("B", ⟨"B", "Scene B", some "A", []⟩)], some "A"⟩ := by
    unfold seqSt4
    rw [h3]
    simp [removeScene, removeScenePrep, getScene, updateScene, getScenesDFSAt,
      getSceneDepth, parentChainDepth, getScenesDFSFrom, dfsLoop, sceneValKeys,
      Scene.removeChoice, deleteScene]
  rw [h4]
  exact ⟨by decide, rfl, rfl⟩

/-- Witness for the amended C9 theorem: each hypothesis-bearing conjunct
applied at a concrete story and operation. -/
theorem rootInv_preserved_witness :
    rootInvB (addScene singleStory ⟨"B", "tb", none, []⟩).1 = true ∧
    rootInvB (⟨[("A", ⟨"A", "z", none, [("D", "d")]⟩)], some "A"⟩ : Story) = true ∧
    rootInvB (⟨[("X", ⟨"X", "tx", none, [("A", "to A")]⟩),
      ("A", ⟨"A", "tA", some "X", [("B", "to B")]⟩),
      ("B", ⟨"B", "tB", some "A", []⟩)], some "X"⟩ : Story) = true ∧
    rootInvB (removeScene extStory "C").1 = true := by
  refine ⟨?_, ?_, ?_, ?_⟩
  · exact rootInv_preserved_by_core_ops.2.1 singleStory ⟨"B", "tb", none, []⟩
      (by decide)
  · exact rootInv_preserved_by_core_ops.2.2.1 editStory "A" (some "z")
      (some [("D", "d")])
      (⟨[("A", ⟨"A", "z", none, [("D", "d")]⟩)], some "A"⟩, true)
      (by decide) (by decide)
  · exact rootInv_preserved_by_core_ops.2.2.2.1 parStory "B" "A"
      (⟨[("X", ⟨"X", "tx", none, [("A", "to A")]⟩),
        ("A", ⟨"A", "tA", some "X", [("B", "to B")]⟩),
        ("B", ⟨"B", "tB", some "A", []⟩)], some "X"⟩, true)
      (by decide) (by decide)
  · apply rootInv_preserved_by_core_ops.2.2.2.2 extStory "C" "A" (by decide) rfl
    have hck : cascadeKeys extStory "C" = ["C"] := by
      simp [cascadeKeys, removeScenePrep, extStory, extA, extB, extC, getScene,
        updateScene, getScenesDFSAt, getSceneDepth, parentChainDepth,
        getScenesDFSFrom, dfsLoop, sceneValKeys, Scene.removeChoice]
    rw [hck]
    decide
